import Mathlib

/-!
Verification of the SemEval-2015 task 13 scorer
(file scorer_wn.py: functions read_file and score).

Modelling conventions:
* A file is a list of its lines (Python: iterating over the open file).
* Python dict (insertion ordered, unique keys) is an association list
  `List (String × Finset String)`; Python set of strings is `Finset String`.
* Python float arithmetic is modelled by exact rational arithmetic over ℚ
  (the program only adds and divides nonnegative quantities).
* Python exceptions are explicit: ValueError from int()/str.index() inside
  read_file is `PError.parse`; ZeroDivisionError inside score's loop is
  `SError.zeroDiv`.
* Python str.lower / str.strip / int() are Unicode-aware; they are modelled
  here on the ASCII fragment the file format uses (int() without underscore
  digit separators).
-/

set_option autoImplicit false

namespace Scorer

/-- Characters removed by Python str.strip(): ASCII whitespace. -/
def isPyWs (c : Char) : Bool :=
  c = ' ' || c = '\t' || c = '\n' || c = '\r' || c = '\x0b' || c = '\x0c'

/-- Python line.strip(): drop leading and trailing whitespace. -/
def pyStrip (s : String) : String :=
  ⟨((s.data.dropWhile isPyWs).reverse.dropWhile isPyWs).reverse⟩

/-- Python str.split(sep) with a one-character separator:
"".split(t) = [""], empty fields are kept. -/
def pySplit (sep : Char) : List Char → List (List Char)
  | [] => [[]]
  | c :: rest =>
    match pySplit sep rest with
    | [] => [[]]
    | g :: gs => if c = sep then [] :: g :: gs else (c :: g) :: gs

/-- Python s.index(c) for a single character: index of the first
occurrence, none when absent (Python raises ValueError). -/
def charIdx : List Char → Char → Option Nat
  | [], _ => none
  | a :: rest, c => if a = c then some 0 else (charIdx rest c).map (· + 1)

/-- Python slice s[a:b] for nonnegative bounds: empty when b ≤ a,
clamped at the length. -/
def pySlice (l : List Char) (a b : Nat) : List Char :=
  (l.take b).drop a

/-- Value of a nonempty all-decimal-digit character list. -/
def digitsToNat (l : List Char) : Option Nat :=
  if l = [] then none
  else if l.all Char.isDigit then
    some (l.foldl (fun acc c => 10 * acc + (c.toNat - 48)) 0)
  else none

/-- Python int(str): strip whitespace, optional sign, decimal digits
(restricted to ASCII, no underscore separators); none models ValueError. -/
def pyIntParse (l : List Char) : Option Int :=
  match (l.dropWhile isPyWs).reverse.dropWhile isPyWs |>.reverse with
  | '+' :: rest => (digitsToNat rest).map Int.ofNat
  | '-' :: rest => (digitsToNat rest).map (fun n => -(Int.ofNat n))
  | t => (digitsToNat t).map Int.ofNat

/-- The ValueError raised inside read_file (spec: ParseError). -/
inductive PError where
  | parse
  deriving DecidableEq, Repr

/-- Decidable equality of results, for concrete evaluation. -/
instance exceptDecEq {ε α : Type} [DecidableEq ε] [DecidableEq α] :
    DecidableEq (Except ε α) := fun a b =>
  match a, b with
  | .ok x, .ok y =>
    if h : x = y then .isTrue (by rw [h])
    else .isFalse (fun hc => h (Except.ok.inj hc))
  | .error x, .error y =>
    if h : x = y then .isTrue (by rw [h])
    else .isFalse (fun hc => h (Except.error.inj hc))
  | .ok _, .error _ => .isFalse (fun hc => Except.noConfusion hc)
  | .error _, .ok _ => .isFalse (fun hc => Except.noConfusion hc)

/-- Document-id extraction of read_file:
int(parts[0][parts[0].index("d") + 1 : parts[0].index(".")]).
Both index calls search the whole string from the start. -/
def extractDocId (s : String) : Except PError Int :=
  match charIdx s.data 'd', charIdx s.data '.' with
  | some i, some j =>
    match pyIntParse (pySlice s.data (i + 1) j) with
    | some n => .ok n
    | none => .error .parse
  | _, _ => .error .parse

/-- Python annotation.lower().replace("_", " ") (ASCII lower-casing). -/
def normalize (s : String) : String :=
  ⟨(s.data.map Char.toLower).map (fun c => if c = '_' then ' ' else c)⟩

/-- Python a.startswith(pre). -/
def pyStartsWith (s pre : String) : Bool :=
  pre.data.isPrefixOf s.data

/-- The dict result type of read_file: insertion-ordered unique keys. -/
abbrev AnnMap := List (String × Finset String)

/-- Python key in dict / dict[key] lookup on the association list. -/
def lookupA : AnnMap → String → Option (Finset String)
  | [], _ => none
  | (k', v) :: rest, k => if k' = k then some v else lookupA rest k

/-- Python: result_map.setdefault(key, set()) followed by adding all the
labels; an existing key keeps its position, a new key is appended. -/
def updateA : AnnMap → String → Finset String → AnnMap
  | [], k, labels => [(k, labels)]
  | (k', v) :: rest, k, labels =>
    if k' = k then (k', v ∪ labels) :: rest else (k', v) :: updateA rest k labels

/-- Python `if docs and doc_id not in docs: continue`:
skip iff the filter is supplied, non-empty and misses the id. -/
def skipFilter (docs : Option (Finset Int)) (i : Int) : Bool :=
  match docs with
  | none => false
  | some ds => decide (ds ≠ ∅) && decide (i ∉ ds)

/-- parts = line.strip().split("\t"). -/
def lineParts (l : String) : List String :=
  (pySplit '\t' (pyStrip l).data).map String.mk

/-- A line is retained when it has at least 3 tab-separated fields. -/
def retained (l : String) : Bool :=
  decide (3 ≤ (lineParts l).length)

/-- Field 0 of a line (the document.sentence token). -/
def field0 (l : String) : String :=
  (lineParts l).getD 0 ""

/-- The fragment key parts[0] + parts[1]. -/
def keyOf (l : String) : String :=
  (lineParts l).getD 0 "" ++ (lineParts l).getD 1 ""

/-- The normalized labels of fields 2..N of a line. -/
def labelsOf (l : String) : List String :=
  ((lineParts l).drop 2).map normalize

/-- One iteration of the read_file loop body on one line. -/
def processLine (docs : Option (Finset Int)) (m : AnnMap) (l : String) :
    Except PError AnnMap :=
  if (lineParts l).length < 3 then .ok m
  else
    match extractDocId (field0 l) with
    | .error e => .error e
    | .ok i =>
      if skipFilter docs i then .ok m
      else .ok (updateA m (keyOf l) (labelsOf l).toFinset)

/-- The read_file loop over the remaining lines. -/
def readFold (docs : Option (Finset Int)) : AnnMap → List String → Except PError AnnMap
  | m, [] => .ok m
  | m, l :: ls =>
    match processLine docs m l with
    | .error e => .error e
    | .ok m' => readFold docs m' ls

/-- read_file(file_path, docs): parse the lines into the annotation map. -/
def read_file (lines : List String) (docs : Option (Finset Int)) :
    Except PError AnnMap :=
  readFold docs [] lines

/-- Errors score can surface: a propagated ParseError from read_file, or
ZeroDivisionError from the per-key division. -/
inductive SError where
  | parse
  | zeroDiv
  deriving DecidableEq, Repr

/-- One iteration of score's loop for one system entry (key, answers):
skip keys absent from the gold map; otherwise filter the gold set to
wn:-prefixed labels, count matches, and add the two fractions.
The division local_ok / answer_count raises ZeroDivisionError on an
empty answer set. -/
def scoreStep (gs : AnnMap) (acc : ℚ × ℚ) (e : String × Finset String) :
    Except SError (ℚ × ℚ) :=
  match lookupA gs e.1 with
  | none => .ok acc
  | some g =>
    let goldAnswers := g.filter (fun a => pyStartsWith a "wn:")
    let n := e.2.card
    if n = 0 then .error .zeroDiv
    else
      let c := (e.2.filter (fun a => a ∈ goldAnswers)).card
      .ok (acc.1 + (c : ℚ) / (n : ℚ), acc.2 + ((n : ℚ) - (c : ℚ)) / (n : ℚ))

/-- score's accumulation loop over the system map entries. -/
def scoreLoop (gs : AnnMap) : List (String × Finset String) → ℚ × ℚ →
    Except SError (ℚ × ℚ)
  | [], acc => .ok acc
  | e :: rest, acc =>
    match scoreStep gs acc e with
    | .error err => .error err
    | .ok acc' => scoreLoop gs rest acc'

/-- The final metric computation of score from ok, not_ok and len(gs_map). -/
def metrics (gsLen : Nat) (okv notOk : ℚ) : ℚ × ℚ × ℚ :=
  let p := if okv + notOk > 0 then okv / (okv + notOk) else 0
  let r := if 0 < gsLen then okv / (gsLen : ℚ) else 0
  let f := if p + r > 0 then 2 * p * r / (p + r) else 0
  (p, r, f)

/-- score(gs_file, system_file, docs): read both files with the same
filter, run the loop, compute (precision, recall, f1). -/
def score (gsLines sysLines : List String) (docs : Option (Finset Int)) :
    Except SError (ℚ × ℚ × ℚ) :=
  match read_file gsLines docs with
  | .error _ => .error .parse
  | .ok gsMap =>
    match read_file sysLines docs with
    | .error _ => .error .parse
    | .ok sysMap =>
      match scoreLoop gsMap sysMap (0, 0) with
      | .error e => .error e
      | .ok acc => .ok (metrics gsMap.length acc.1 acc.2)

/-- Specification-side per-entry matched credit: 0 for a key absent from
the gold map, otherwise c / n. -/
def credit (gs : AnnMap) (e : String × Finset String) : ℚ :=
  match lookupA gs e.1 with
  | none => 0
  | some g =>
    ((e.2.filter (fun a => a ∈ g.filter (fun b => pyStartsWith b "wn:"))).card : ℚ) /
      (e.2.card : ℚ)

/-- Specification-side per-entry unmatched penalty: 0 for a key absent
from the gold map, otherwise (n - c) / n. -/
def penalty (gs : AnnMap) (e : String × Finset String) : ℚ :=
  match lookupA gs e.1 with
  | none => 0
  | some g =>
    ((e.2.card : ℚ) -
      ((e.2.filter (fun a => a ∈ g.filter (fun b => pyStartsWith b "wn:"))).card : ℚ)) /
      (e.2.card : ℚ)

/-- Number of system entries whose key is also a gold key. -/
def countCommon (gs : AnnMap) (sys : List (String × Finset String)) : Nat :=
  (sys.filter (fun e => (lookupA gs e.1).isSome)).length

/-- Modelled from the spec wording of claim C4 (for comparison with the
source's extractDocId): the integer between the first occurrence of d and
the first occurrence of a dot AFTER that d. -/
def docIdSpec (s : String) : Except PError Int :=
  match charIdx s.data 'd' with
  | none => .error .parse
  | some i =>
    match charIdx (s.data.drop (i + 1)) '.' with
    | none => .error .parse
    | some j =>
      match pyIntParse (pySlice s.data (i + 1) (i + 1 + j)) with
      | some n => .ok n
      | none => .error .parse

/-! Association-list lemmas for the dict model. -/

theorem lookupA_eq_none_iff (m : AnnMap) (k : String) :
    lookupA m k = none ↔ k ∉ m.map Prod.fst := by
  induction m with
  | nil => simp [lookupA]
  | cons p rest ih =>
    obtain ⟨k', v⟩ := p
    simp only [lookupA, List.map_cons, List.mem_cons]
    by_cases h : k' = k
    · subst h; simp
    · rw [if_neg h, ih]
      have : ¬ k = k' := fun hc => h hc.symm
      simp [this]

theorem lookupA_updateA_self (m : AnnMap) (k : String) (labels : Finset String) :
    lookupA (updateA m k labels) k = some ((lookupA m k).getD ∅ ∪ labels) := by
  induction m with
  | nil => simp [lookupA, updateA]
  | cons p rest ih =>
    obtain ⟨k', v⟩ := p
    by_cases h : k' = k
    · subst h; simp [lookupA, updateA]
    · simp [lookupA, updateA, h, ih]

theorem lookupA_updateA_ne (m : AnnMap) (k k' : String) (labels : Finset String)
    (h : k' ≠ k) : lookupA (updateA m k labels) k' = lookupA m k' := by
  induction m with
  | nil => simp [lookupA, updateA, Ne.symm h]
  | cons p rest ih =>
    obtain ⟨k0, v⟩ := p
    by_cases h0 : k0 = k
    · subst h0
      simp only [updateA, if_pos rfl, lookupA]
      rw [if_neg (fun hc : k0 = k' => h hc.symm),
        if_neg (fun hc : k0 = k' => h hc.symm)]
    · simp only [updateA, if_neg h0, lookupA, ih]

theorem updateA_map_fst (m : AnnMap) (k : String) (labels : Finset String) :
    (updateA m k labels).map Prod.fst =
      if k ∈ m.map Prod.fst then m.map Prod.fst else m.map Prod.fst ++ [k] := by
  induction m with
  | nil => simp [updateA]
  | cons p rest ih =>
    obtain ⟨k', v⟩ := p
    by_cases h : k' = k
    · subst h; simp [updateA]
    · simp only [updateA, if_neg h, List.map_cons, ih]
      by_cases hm : k ∈ rest.map Prod.fst <;>
        simp [hm, Ne.symm h, List.mem_cons]

theorem nodup_updateA (m : AnnMap) (k : String) (labels : Finset String)
    (h : (m.map Prod.fst).Nodup) : ((updateA m k labels).map Prod.fst).Nodup := by
  rw [updateA_map_fst]
  by_cases hm : k ∈ m.map Prod.fst
  · simpa [hm] using h
  · simp only [if_neg hm]
    exact List.Nodup.append h (List.nodup_singleton k) (by simpa using hm)

theorem mem_lookupA (m : AnnMap) (k : String) (v : Finset String)
    (hnd : (m.map Prod.fst).Nodup) (hm : (k, v) ∈ m) : lookupA m k = some v := by
  induction m with
  | nil => simp at hm
  | cons p rest ih =>
    obtain ⟨k', v'⟩ := p
    simp only [List.map_cons, List.nodup_cons] at hnd
    rcases List.mem_cons.1 hm with h | h
    · injection h with h1 h2
      simp [lookupA, ← h1, h2]
    · have hk : k' ≠ k := by
        intro hc
        exact hnd.1 (by simpa [hc] using List.mem_map_of_mem Prod.fst h)
      simp [lookupA, hk, ih hnd.2 h]

theorem mem_updateA_cases (m : AnnMap) (k : String) (labels : Finset String)
    (p : String × Finset String) (hp : p ∈ updateA m k labels) :
    p ∈ m ∨ (p.1 = k ∧ (p.2 = labels ∨ ∃ v, p.2 = v ∪ labels)) := by
  induction m with
  | nil =>
    simp only [updateA, List.mem_singleton] at hp
    subst hp; simp
  | cons q rest ih =>
    obtain ⟨k', v⟩ := q
    simp only [updateA] at hp
    split at hp
    · rename_i h
      rcases List.mem_cons.1 hp with h1 | h1
      · subst h1; exact Or.inr ⟨h, Or.inr ⟨v, rfl⟩⟩
      · exact Or.inl (List.mem_cons_of_mem _ h1)
    · rcases List.mem_cons.1 hp with h1 | h1
      · exact Or.inl (List.mem_cons.2 (Or.inl h1))
      · rcases ih h1 with h2 | h2
        · exact Or.inl (List.mem_cons_of_mem _ h2)
        · exact Or.inr h2

/-! Unfolding lemmas for the read_file loop body. -/

theorem retained_iff (l : String) : retained l = true ↔ 3 ≤ (lineParts l).length := by
  simp [retained]

theorem processLine_not_retained (docs : Option (Finset Int)) (m : AnnMap)
    (l : String) (h : retained l = false) : processLine docs m l = .ok m := by
  have h3 : (lineParts l).length < 3 := by
    have := (not_congr (retained_iff l)).1 (by simp [h])
    omega
  simp [processLine, if_pos h3]

theorem processLine_ok_cases (docs : Option (Finset Int)) (m m' : AnnMap)
    (l : String) (h : processLine docs m l = .ok m') :
    m' = m ∨ (retained l = true ∧ ∃ i, extractDocId (field0 l) = .ok i ∧
      skipFilter docs i = false ∧ m' = updateA m (keyOf l) (labelsOf l).toFinset) := by
  unfold processLine at h
  split at h
  · exact Or.inl (Except.ok.inj h).symm
  · rename_i hlen
    split at h
    · exact absurd h (by simp)
    · rename_i i hi
      split at h
      · exact Or.inl (Except.ok.inj h).symm
      · rename_i hskip
        refine Or.inr ⟨(retained_iff l).2 (by omega), i, hi, by simpa using hskip,
          (Except.ok.inj h).symm⟩

theorem processLine_ok_extract (docs : Option (Finset Int)) (m m' : AnnMap)
    (l : String) (h : processLine docs m l = .ok m') (hr : retained l = true) :
    ∃ i, extractDocId (field0 l) = .ok i := by
  unfold processLine at h
  have h3 : ¬ (lineParts l).length < 3 := by
    have := (retained_iff l).1 hr; omega
  rw [if_neg h3] at h
  rcases he : extractDocId (field0 l) with e | i
  · rw [he] at h; simp at h
  · exact ⟨i, rfl⟩

theorem processLine_update (docs : Option (Finset Int)) (m : AnnMap) (l : String)
    (i : Int) (hr : retained l = true) (he : extractDocId (field0 l) = .ok i)
    (hs : skipFilter docs i = false) :
    processLine docs m l = .ok (updateA m (keyOf l) (labelsOf l).toFinset) := by
  have h3 : ¬ (lineParts l).length < 3 := by
    have := (retained_iff l).1 hr; omega
  simp [processLine, if_neg h3, he, hs]

/-! Lemmas about the read_file fold. -/

theorem skipFilter_none (i : Int) : skipFilter none i = false := rfl

theorem skipFilter_some_empty (i : Int) : skipFilter (some ∅) i = false := by
  simp [skipFilter]

theorem skipFilter_false_mem (ds : Finset Int) (i : Int) (hds : ds ≠ ∅)
    (h : skipFilter (some ds) i = false) : i ∈ ds := by
  simpa [skipFilter, hds] using h

theorem processLine_nodup (docs : Option (Finset Int)) (m m' : AnnMap) (l : String)
    (h : processLine docs m l = .ok m') (hnd : (m.map Prod.fst).Nodup) :
    (m'.map Prod.fst).Nodup := by
  rcases processLine_ok_cases docs m m' l h with h1 | ⟨_, i, _, _, h1⟩
  · exact h1 ▸ hnd
  · exact h1 ▸ nodup_updateA m (keyOf l) (labelsOf l).toFinset hnd

theorem readFold_nodup (docs : Option (Finset Int)) (lines : List String) :
    ∀ m0 m : AnnMap, readFold docs m0 lines = .ok m →
      (m0.map Prod.fst).Nodup → (m.map Prod.fst).Nodup := by
  induction lines with
  | nil =>
    intro m0 m h h0
    simp only [readFold] at h
    exact (Except.ok.inj h) ▸ h0
  | cons l ls ih =>
    intro m0 m h h0
    simp only [readFold] at h
    cases hp : processLine docs m0 l with
    | error e => rw [hp] at h; simp at h
    | ok m1 => rw [hp] at h; exact ih m1 m h (processLine_nodup docs m0 m1 l hp h0)

theorem readFold_entry_inv (docs : Option (Finset Int))
    (P : String × Finset String → Prop)
    (hstep : ∀ l i, retained l = true → extractDocId (field0 l) = .ok i →
      skipFilter docs i = false →
      P (keyOf l, (labelsOf l).toFinset) ∧
        ∀ v : Finset String, P (keyOf l, v ∪ (labelsOf l).toFinset))
    (lines : List String) :
    ∀ m0 m : AnnMap, readFold docs m0 lines = .ok m →
      (∀ p ∈ m0, P p) → ∀ p ∈ m, P p := by
  induction lines with
  | nil =>
    intro m0 m h h0
    simp only [readFold] at h
    exact (Except.ok.inj h) ▸ h0
  | cons l ls ih =>
    intro m0 m h h0
    simp only [readFold] at h
    cases hp : processLine docs m0 l with
    | error e => rw [hp] at h; simp at h
    | ok m1 =>
      rw [hp] at h
      refine ih m1 m h ?_
      rcases processLine_ok_cases docs m0 m1 l hp with h1 | ⟨hr, i, hi, hs, h1⟩
      · exact h1 ▸ h0
      · subst h1
        intro p hpmem
        rcases mem_updateA_cases m0 (keyOf l) (labelsOf l).toFinset p hpmem with
          h2 | ⟨h2, h3⟩
        · exact h0 p h2
        · obtain ⟨pk, ps⟩ := p
          simp only at h2
          subst h2
          rcases h3 with h3 | ⟨v, h3⟩ <;> subst h3
          · exact (hstep l i hr hi hs).1
          · exact (hstep l i hr hi hs).2 v

theorem labelsOf_ne_nil (l : String) (hr : retained l = true) : labelsOf l ≠ [] := by
  have h3 := (retained_iff l).1 hr
  intro hc
  have := congrArg List.length hc
  simp [labelsOf, List.length_drop] at this
  omega

theorem toFinset_nonempty_of_ne_nil (l : List String) (h : l ≠ []) :
    l.toFinset.Nonempty := by
  cases l with
  | nil => exact absurd rfl h
  | cons a t => exact ⟨a, by simp⟩

/-! Appending the fragment token does not change the extracted document id. -/

theorem charIdx_append (l1 l2 : List Char) (c : Char) (i : Nat)
    (h : charIdx l1 c = some i) : charIdx (l1 ++ l2) c = some i := by
  induction l1 generalizing i with
  | nil => simp [charIdx] at h
  | cons a t ih =>
    simp only [charIdx, List.cons_append, List.append_eq] at h ⊢
    by_cases ha : a = c
    · simpa [ha] using h
    · rw [if_neg ha] at h ⊢
      cases ht : charIdx t c with
      | none => rw [ht] at h; simp at h
      | some j =>
        rw [ht] at h
        rw [ih j ht]
        simpa using h

theorem charIdx_lt_length (l : List Char) (c : Char) (i : Nat)
    (h : charIdx l c = some i) : i < l.length := by
  induction l generalizing i with
  | nil => simp [charIdx] at h
  | cons a t ih =>
    simp only [charIdx] at h
    by_cases ha : a = c
    · rw [if_pos ha] at h
      have hi : i = 0 := (Option.some.inj h).symm
      subst hi
      simp
    · rw [if_neg ha] at h
      cases ht : charIdx t c with
      | none => rw [ht] at h; simp at h
      | some j =>
        rw [ht] at h
        simp only [Option.map_some', Option.some.injEq] at h
        have := ih j ht
        simp only [List.length_cons]
        omega

theorem pySlice_append (l1 l2 : List Char) (a b : Nat) (hb : b ≤ l1.length) :
    pySlice (l1 ++ l2) a b = pySlice l1 a b := by
  simp [pySlice, List.take_append_eq_append_take, Nat.sub_eq_zero_of_le hb]

theorem extractDocId_append (s t : String) (i : Int)
    (h : extractDocId s = .ok i) : extractDocId (s ++ t) = .ok i := by
  unfold extractDocId at h ⊢
  rcases hd : charIdx s.data 'd' with _ | di <;> rw [hd] at h
  · simp at h
  · rcases hdot : charIdx s.data '.' with _ | dj <;> rw [hdot] at h
    · simp at h
    · have h' : (match pyIntParse (pySlice s.data (di + 1) dj) with
          | some n => (Except.ok n : Except PError Int)
          | none => Except.error PError.parse) = Except.ok i := h
      rw [String.data_append, charIdx_append s.data t.data 'd' di hd,
        charIdx_append s.data t.data '.' dj hdot]
      show (match pyIntParse (pySlice (s.data ++ t.data) (di + 1) dj) with
        | some n => (Except.ok n : Except PError Int)
        | none => Except.error PError.parse) = Except.ok i
      rw [pySlice_append s.data t.data (di + 1) dj
        (Nat.le_of_lt (charIdx_lt_length s.data '.' dj hdot))]
      exact h'

theorem extractDocId_keyOf (l : String) (i : Int)
    (h : extractDocId (field0 l) = .ok i) : extractDocId (keyOf l) = .ok i :=
  extractDocId_append (field0 l) ((lineParts l).getD 1 "") i h

/-! Characterization of the map built by read_file when the document
filter passes every line. -/

theorem processLine_ok_cases_nofilter (docs : Option (Finset Int)) (m m' : AnnMap)
    (l : String) (hpass : ∀ i, skipFilter docs i = false)
    (h : processLine docs m l = .ok m') :
    (retained l = false ∧ m' = m) ∨
      (retained l = true ∧ m' = updateA m (keyOf l) (labelsOf l).toFinset) := by
  unfold processLine at h
  split at h
  · rename_i hlen
    have hr : retained l = false := by
      have : ¬ 3 ≤ (lineParts l).length := by omega
      simp [retained, this]
    exact Or.inl ⟨hr, (Except.ok.inj h).symm⟩
  · rename_i hlen
    split at h
    · simp at h
    · rename_i i hi
      rw [hpass i] at h
      simp only [Bool.false_eq_true, if_false] at h
      exact Or.inr ⟨(retained_iff l).2 (by omega), (Except.ok.inj h).symm⟩

theorem exists_mem_cons_retained (l : String) (ls : List String)
    (R : String → Prop) :
    (∃ x ∈ l :: ls, retained x = true ∧ R x) ↔
      ((retained l = true ∧ R l) ∨ ∃ x ∈ ls, retained x = true ∧ R x) := by
  constructor
  · rintro ⟨x, hx, h1, h2⟩
    rcases List.mem_cons.1 hx with hx | hx
    · exact Or.inl ⟨hx ▸ h1, hx ▸ h2⟩
    · exact Or.inr ⟨x, hx, h1, h2⟩
  · rintro (⟨h1, h2⟩ | ⟨x, hx, h1, h2⟩)
    · exact ⟨l, List.mem_cons_self l ls, h1, h2⟩
    · exact ⟨x, List.mem_cons_of_mem l hx, h1, h2⟩

theorem readFold_char (docs : Option (Finset Int))
    (hpass : ∀ i, skipFilter docs i = false) (lines : List String) :
    ∀ m0 m : AnnMap, readFold docs m0 lines = .ok m → ∀ k : String,
      ((lookupA m k ≠ none) ↔
        (lookupA m0 k ≠ none ∨ ∃ l ∈ lines, retained l = true ∧ keyOf l = k)) ∧
      (∀ a : String, a ∈ (lookupA m k).getD ∅ ↔
        (a ∈ (lookupA m0 k).getD ∅ ∨
          ∃ l ∈ lines, retained l = true ∧ (keyOf l = k ∧ a ∈ labelsOf l))) := by
  induction lines with
  | nil =>
    intro m0 m h k
    simp only [readFold] at h
    obtain rfl : m0 = m := Except.ok.inj h
    simp
  | cons l ls ih =>
    intro m0 m h k
    simp only [readFold] at h
    cases hp : processLine docs m0 l with
    | error e => rw [hp] at h; simp at h
    | ok m1 =>
      rw [hp] at h
      have IH := ih m1 m h k
      rcases processLine_ok_cases_nofilter docs m0 m1 l hpass hp with
        ⟨hr, h1⟩ | ⟨hr, h1⟩
      · subst h1
        have hnr : ∀ Q : Prop, ¬ (retained l = true ∧ Q) := fun Q hc => by
          rw [hc.1] at hr; exact Bool.noConfusion hr
        refine ⟨?_, ?_⟩
        · rw [IH.1, exists_mem_cons_retained]
          constructor
          · rintro (h2 | h2)
            exacts [Or.inl h2, Or.inr (Or.inr h2)]
          · rintro (h2 | (h2 | h2))
            exacts [Or.inl h2, absurd h2 (hnr _), Or.inr h2]
        · intro a
          rw [IH.2 a, exists_mem_cons_retained]
          constructor
          · rintro (h2 | h2)
            exacts [Or.inl h2, Or.inr (Or.inr h2)]
          · rintro (h2 | (h2 | h2))
            exacts [Or.inl h2, absurd h2 (hnr _), Or.inr h2]
      · subst h1
        by_cases hk : keyOf l = k
        · subst hk
          refine ⟨?_, ?_⟩
          · refine iff_of_true (IH.1.2 (Or.inl ?_)) ?_
            · rw [lookupA_updateA_self]; simp
            · exact Or.inr ⟨l, List.mem_cons_self l ls, hr, rfl⟩
          · intro a
            rw [IH.2 a, exists_mem_cons_retained, lookupA_updateA_self]
            simp only [Option.getD_some, Finset.mem_union, List.mem_toFinset]
            constructor
            · rintro ((h2 | h2) | h2)
              exacts [Or.inl h2, Or.inr (Or.inl ⟨hr, by simp, h2⟩),
                Or.inr (Or.inr h2)]
            · rintro (h2 | (⟨_, _, h2⟩ | h2))
              exacts [Or.inl (Or.inl h2), Or.inl (Or.inr h2), Or.inr h2]
        · have hnk : ∀ Q : Prop, ¬ (retained l = true ∧ (keyOf l = k ∧ Q)) :=
            fun Q hc => hk hc.2.1
          have hne : lookupA (updateA m0 (keyOf l) (labelsOf l).toFinset) k =
              lookupA m0 k :=
            lookupA_updateA_ne m0 (keyOf l) k (labelsOf l).toFinset
              (fun hc => hk hc.symm)
          refine ⟨?_, ?_⟩
          · rw [IH.1, exists_mem_cons_retained, hne]
            constructor
            · rintro (h2 | h2)
              exacts [Or.inl h2, Or.inr (Or.inr h2)]
            · rintro (h2 | (h2 | h2))
              exacts [Or.inl h2, absurd h2.2 (fun hc => hk hc), Or.inr h2]
          · intro a
            rw [IH.2 a, exists_mem_cons_retained, hne]
            constructor
            · rintro (h2 | h2)
              exacts [Or.inl h2, Or.inr (Or.inr h2)]
            · rintro (h2 | (h2 | h2))
              exacts [Or.inl h2, absurd h2 (hnk _), Or.inr h2]

/-! Lemmas about the scoring loop. -/

theorem scoreStep_none (gs : AnnMap) (acc : ℚ × ℚ) (e : String × Finset String)
    (h : lookupA gs e.1 = none) : scoreStep gs acc e = .ok acc := by
  simp [scoreStep, h]

theorem scoreStep_some (gs : AnnMap) (acc : ℚ × ℚ) (e : String × Finset String)
    (g : Finset String) (h : lookupA gs e.1 = some g) (hn : e.2.card ≠ 0) :
    scoreStep gs acc e = .ok
      (acc.1 + ((e.2.filter (fun a =>
          a ∈ g.filter (fun b => pyStartsWith b "wn:"))).card : ℚ) / (e.2.card : ℚ),
       acc.2 + ((e.2.card : ℚ) - ((e.2.filter (fun a =>
          a ∈ g.filter (fun b => pyStartsWith b "wn:"))).card : ℚ)) / (e.2.card : ℚ)) := by
  simp [scoreStep, h, hn]

theorem scoreStep_empty (gs : AnnMap) (acc : ℚ × ℚ) (e : String × Finset String)
    (g : Finset String) (h : lookupA gs e.1 = some g) (hn : e.2.card = 0) :
    scoreStep gs acc e = .error .zeroDiv := by
  simp [scoreStep, h, hn]

theorem credit_none (gs : AnnMap) (e : String × Finset String)
    (h : lookupA gs e.1 = none) : credit gs e = 0 := by
  simp [credit, h]

theorem credit_some (gs : AnnMap) (e : String × Finset String) (g : Finset String)
    (h : lookupA gs e.1 = some g) :
    credit gs e = ((e.2.filter (fun a =>
        a ∈ g.filter (fun b => pyStartsWith b "wn:"))).card : ℚ) / (e.2.card : ℚ) := by
  simp [credit, h]

theorem penalty_none (gs : AnnMap) (e : String × Finset String)
    (h : lookupA gs e.1 = none) : penalty gs e = 0 := by
  simp [penalty, h]

theorem penalty_some (gs : AnnMap) (e : String × Finset String) (g : Finset String)
    (h : lookupA gs e.1 = some g) :
    penalty gs e = ((e.2.card : ℚ) - ((e.2.filter (fun a =>
        a ∈ g.filter (fun b => pyStartsWith b "wn:"))).card : ℚ)) / (e.2.card : ℚ) := by
  simp [penalty, h]

theorem scoreLoop_ok_sum (gs : AnnMap) (sys : List (String × Finset String)) :
    ∀ acc : ℚ × ℚ, (∀ e ∈ sys, lookupA gs e.1 ≠ none → e.2.Nonempty) →
      scoreLoop gs sys acc = .ok
        (acc.1 + (sys.map (credit gs)).sum, acc.2 + (sys.map (penalty gs)).sum) := by
  induction sys with
  | nil => intro acc h; simp [scoreLoop]
  | cons e rest ih =>
    intro acc h
    have hrest : ∀ e' ∈ rest, lookupA gs e'.1 ≠ none → e'.2.Nonempty :=
      fun e' he' => h e' (List.mem_cons_of_mem e he')
    cases hl : lookupA gs e.1 with
    | none =>
      simp only [scoreLoop, scoreStep_none gs acc e hl]
      rw [ih acc hrest]
      simp [credit_none gs e hl, penalty_none gs e hl]
    | some g =>
      have hne : e.2.card ≠ 0 := by
        have hno : e.2.Nonempty := h e (List.mem_cons_self e rest) (by simp [hl])
        have := Finset.card_pos.2 hno
        omega
      simp only [scoreLoop, scoreStep_some gs acc e g hl hne]
      rw [ih _ hrest]
      simp only [List.map_cons, List.sum_cons, credit_some gs e g hl,
        penalty_some gs e g hl, Except.ok.injEq, Prod.mk.injEq]
      constructor <;> ring

theorem scoreLoop_ok_nonempty (gs : AnnMap) (sys : List (String × Finset String)) :
    ∀ (acc : ℚ × ℚ) (out : ℚ × ℚ), scoreLoop gs sys acc = .ok out →
      ∀ e ∈ sys, lookupA gs e.1 ≠ none → e.2.Nonempty := by
  induction sys with
  | nil => intro acc out h e he; simp at he
  | cons e0 rest ih =>
    intro acc out h e he hlk
    simp only [scoreLoop] at h
    cases hs : scoreStep gs acc e0 with
    | error err => rw [hs] at h; simp at h
    | ok acc' =>
      rw [hs] at h
      rcases List.mem_cons.1 he with rfl | hmem
      · cases hl : lookupA gs e.1 with
        | none => exact absurd hl hlk
        | some g =>
          by_contra hem
          have hc : e.2.card = 0 := by
            simp [Finset.not_nonempty_iff_eq_empty.1 hem]
          exact Except.noConfusion ((scoreStep_empty gs acc e g hl hc).symm.trans hs)
      · exact ih acc' out h e hmem hlk

theorem scoreLoop_total (gs : AnnMap) (sys : List (String × Finset String)) :
    ∀ acc : ℚ × ℚ, (∀ e ∈ sys, e.2.Nonempty) →
      ∃ out, scoreLoop gs sys acc = .ok out := by
  induction sys with
  | nil => intro acc h; exact ⟨acc, rfl⟩
  | cons e rest ih =>
    intro acc h
    have hrest : ∀ e' ∈ rest, e'.2.Nonempty :=
      fun e' he' => h e' (List.mem_cons_of_mem e he')
    cases hl : lookupA gs e.1 with
    | none =>
      obtain ⟨out, ho⟩ := ih acc hrest
      refine ⟨out, ?_⟩
      simp only [scoreLoop, scoreStep_none gs acc e hl]
      exact ho
    | some g =>
      have hne : e.2.card ≠ 0 := by
        have := Finset.card_pos.2 (h e (List.mem_cons_self e rest))
        omega
      obtain ⟨out, ho⟩ := ih _ hrest
      refine ⟨out, ?_⟩
      simp only [scoreLoop, scoreStep_some gs acc e g hl hne]
      exact ho

theorem countCommon_cons (gs : AnnMap) (e : String × Finset String)
    (rest : List (String × Finset String)) :
    countCommon gs (e :: rest) =
      (if (lookupA gs e.1).isSome then 1 else 0) + countCommon gs rest := by
  simp only [countCommon, List.filter_cons]
  split
  · rename_i h; simp [h, Nat.add_comm]
  · rename_i h; simp [h]

theorem scoreLoop_ok_bounds (gs : AnnMap) (sys : List (String × Finset String)) :
    ∀ (acc : ℚ × ℚ) (okv nok : ℚ), scoreLoop gs sys acc = .ok (okv, nok) →
      okv + nok = acc.1 + acc.2 + (countCommon gs sys : ℚ) ∧
      acc.1 ≤ okv ∧ acc.2 ≤ nok ∧ okv ≤ acc.1 + (countCommon gs sys : ℚ) := by
  induction sys with
  | nil =>
    intro acc okv nok h
    simp only [scoreLoop] at h
    have hpair := Except.ok.inj h
    have h1 : acc.1 = okv := congrArg Prod.fst hpair
    have h2 : acc.2 = nok := congrArg Prod.snd hpair
    simp [countCommon, ← h1, ← h2]
  | cons e rest ih =>
    intro acc okv nok h
    simp only [scoreLoop] at h
    cases hs : scoreStep gs acc e with
    | error err => rw [hs] at h; simp at h
    | ok acc' =>
      rw [hs] at h
      have IH := ih acc' okv nok h
      cases hl : lookupA gs e.1 with
      | none =>
        obtain rfl : acc = acc' :=
          Except.ok.inj ((scoreStep_none gs acc e hl).symm.trans hs)
        have hc : countCommon gs (e :: rest) = countCommon gs rest := by
          rw [countCommon_cons]; simp [hl]
        rw [hc]
        exact IH
      | some g =>
        have hne : e.2.card ≠ 0 := by
          intro hc
          exact Except.noConfusion ((scoreStep_empty gs acc e g hl hc).symm.trans hs)
        have hstep := Except.ok.inj ((scoreStep_some gs acc e g hl hne).symm.trans hs)
        set c : ℚ := ((e.2.filter (fun a =>
          a ∈ g.filter (fun b => pyStartsWith b "wn:"))).card : ℚ) with hcdef
        set n : ℚ := (e.2.card : ℚ) with hndef
        have hnpos : 0 < n := by
          rw [hndef]
          exact_mod_cast Nat.pos_of_ne_zero hne
        have hc0 : 0 ≤ c := by rw [hcdef]; positivity
        have hcn : c ≤ n := by
          rw [hcdef, hndef]
          exact_mod_cast Finset.card_filter_le e.2 _
        have hsum1 : c / n + (n - c) / n = 1 := by
          rw [div_add_div_same]
          have : c + (n - c) = n := by ring
          rw [this, div_self (ne_of_gt hnpos)]
        have hx0 : 0 ≤ c / n := div_nonneg hc0 (le_of_lt hnpos)
        have hx1 : c / n ≤ 1 := (div_le_one hnpos).2 hcn
        have hy0 : 0 ≤ (n - c) / n := div_nonneg (by linarith) (le_of_lt hnpos)
        have ha1 : acc'.1 = acc.1 + c / n := by rw [← hstep]
        have ha2 : acc'.2 = acc.2 + (n - c) / n := by rw [← hstep]
        have hcc : (countCommon gs (e :: rest) : ℚ) =
            1 + (countCommon gs rest : ℚ) := by
          rw [countCommon_cons]
          simp [hl]
        rw [ha1, ha2] at IH
        rw [hcc]
        refine ⟨by linarith [IH.1], by linarith [IH.2.1], by linarith [IH.2.2.1],
          by linarith [IH.2.2.2]⟩

theorem scoreStep_error_eq (gs : AnnMap) (acc : ℚ × ℚ) (e : String × Finset String)
    (err : SError) (h : scoreStep gs acc e = .error err) : err = .zeroDiv := by
  cases hl : lookupA gs e.1 with
  | none => exact absurd ((scoreStep_none gs acc e hl).symm.trans h) (by simp)
  | some g =>
    by_cases hc : e.2.card = 0
    · exact (Except.error.inj ((scoreStep_empty gs acc e g hl hc).symm.trans h)).symm
    · exact absurd ((scoreStep_some gs acc e g hl hc).symm.trans h) (by simp)

theorem scoreLoop_err_of_mem (gs : AnnMap) (sys : List (String × Finset String)) :
    ∀ (acc : ℚ × ℚ) (k : String), (k, (∅ : Finset String)) ∈ sys →
      lookupA gs k ≠ none → scoreLoop gs sys acc = .error .zeroDiv := by
  induction sys with
  | nil => intro acc k hmem; simp at hmem
  | cons e rest ih =>
    intro acc k hmem hlk
    rcases List.mem_cons.1 hmem with he | hmem'
    · subst he
      cases hl : lookupA gs k with
      | none => exact absurd hl hlk
      | some g =>
        simp only [scoreLoop, scoreStep_empty gs acc (k, ∅) g hl (by simp)]
    · cases hs : scoreStep gs acc e with
      | error err =>
        have := scoreStep_error_eq gs acc e err hs
        subst this
        simp only [scoreLoop, hs]
      | ok acc' =>
        simp only [scoreLoop, hs]
        exact ih acc' k hmem' hlk

theorem scoreLoop_identical (gs : AnnMap) (sys : List (String × Finset String)) :
    ∀ a b : ℚ,
      (∀ e ∈ sys, lookupA gs e.1 = some e.2 ∧ e.2.Nonempty ∧
        ∀ x ∈ e.2, pyStartsWith x "wn:" = true) →
      scoreLoop gs sys (a, b) = .ok (a + (sys.length : ℚ), b) := by
  induction sys with
  | nil => intro a b h; simp [scoreLoop]
  | cons e rest ih =>
    intro a b h
    obtain ⟨hl, hno, hwn⟩ := h e (List.mem_cons_self e rest)
    have hne : e.2.card ≠ 0 := by
      have := Finset.card_pos.2 hno
      omega
    have hfilter : e.2.filter (fun b => pyStartsWith b "wn:") = e.2 :=
      Finset.filter_true_of_mem (fun x hx => hwn x hx)
    have hsub : e.2.filter (fun a => a ∈ e.2) = e.2 :=
      Finset.filter_true_of_mem (fun x hx => hx)
    have hstep : scoreStep gs (a, b) e = .ok (a + 1, b) := by
      rw [scoreStep_some gs (a, b) e e.2 hl hne, hfilter, hsub]
      have hq : (e.2.card : ℚ) ≠ 0 := by exact_mod_cast hne
      simp [div_self hq]
    simp only [scoreLoop, hstep]
    rw [ih (a + 1) b (fun e' he' => h e' (List.mem_cons_of_mem e he'))]
    simp only [List.length_cons, Except.ok.injEq, Prod.mk.injEq]
    exact ⟨by push_cast; ring, by simp⟩

theorem countCommon_le_length (gs : AnnMap) (sys : List (String × Finset String))
    (hnd : (sys.map Prod.fst).Nodup) : countCommon gs sys ≤ gs.length := by
  set l := (sys.filter (fun e => (lookupA gs e.1).isSome)).map Prod.fst with hl
  have hsubl : l.Sublist (sys.map Prod.fst) :=
    (List.filter_sublist sys).map Prod.fst
  have hnd2 : l.Nodup := hnd.sublist hsubl
  have hsubset : ∀ k ∈ l, k ∈ gs.map Prod.fst := by
    intro k hk
    rw [hl] at hk
    obtain ⟨e, he, rfl⟩ := List.mem_map.1 hk
    have h2 : (lookupA gs e.1).isSome = true := (List.mem_filter.1 he).2
    have h3 : lookupA gs e.1 ≠ none := Option.isSome_iff_ne_none.1 h2
    by_contra hc
    exact h3 ((lookupA_eq_none_iff gs e.1).2 hc)
  have h1 : l.toFinset.card = l.length := List.toFinset_card_of_nodup hnd2
  have h2 : l.toFinset ⊆ (gs.map Prod.fst).toFinset := fun x hx =>
    List.mem_toFinset.2 (hsubset x (List.mem_toFinset.1 hx))
  have h3 : (gs.map Prod.fst).toFinset.card ≤ (gs.map Prod.fst).length :=
    List.toFinset_card_le (gs.map Prod.fst)
  have h4 := Finset.card_le_card h2
  have h5 : l.length = countCommon gs sys := by
    rw [hl, List.length_map]
    rfl
  have h6 : (gs.map Prod.fst).length = gs.length := List.length_map gs Prod.fst
  omega

theorem metrics_eq (gsLen : Nat) (okv nok : ℚ) :
    metrics gsLen okv nok =
      (if okv + nok > 0 then okv / (okv + nok) else 0,
       if 0 < gsLen then okv / (gsLen : ℚ) else 0,
       if (if okv + nok > 0 then okv / (okv + nok) else 0) +
           (if 0 < gsLen then okv / (gsLen : ℚ) else 0) > 0 then
         2 * (if okv + nok > 0 then okv / (okv + nok) else 0) *
           (if 0 < gsLen then okv / (gsLen : ℚ) else 0) /
           ((if okv + nok > 0 then okv / (okv + nok) else 0) +
             (if 0 < gsLen then okv / (gsLen : ℚ) else 0))
       else 0) := rfl

theorem f1_bounds (p r : ℚ) (hp0 : 0 ≤ p) (hp1 : p ≤ 1) (hr0 : 0 ≤ r)
    (hr1 : r ≤ 1) :
    0 ≤ (if p + r > 0 then 2 * p * r / (p + r) else 0) ∧
    (if p + r > 0 then 2 * p * r / (p + r) else 0) ≤ 1 := by
  split
  · rename_i hpos
    constructor
    · exact div_nonneg
        (mul_nonneg (mul_nonneg (by norm_num : (0:ℚ) ≤ 2) hp0) hr0)
        (le_of_lt hpos)
    · rw [div_le_one hpos]
      nlinarith [mul_nonneg hp0 (sub_nonneg.2 hr1), mul_nonneg hr0 (sub_nonneg.2 hp1)]
  · exact ⟨by norm_num, by norm_num⟩

theorem metrics_bounds (gsLen : Nat) (okv nok : ℚ) (h1 : 0 ≤ okv) (h2 : 0 ≤ nok)
    (h3 : okv ≤ (gsLen : ℚ)) :
    0 ≤ (metrics gsLen okv nok).1 ∧ (metrics gsLen okv nok).1 ≤ 1 ∧
    0 ≤ (metrics gsLen okv nok).2.1 ∧ (metrics gsLen okv nok).2.1 ≤ 1 ∧
    0 ≤ (metrics gsLen okv nok).2.2 ∧ (metrics gsLen okv nok).2.2 ≤ 1 := by
  rw [metrics_eq]
  dsimp only
  have hp : 0 ≤ (if okv + nok > 0 then okv / (okv + nok) else 0) ∧
      (if okv + nok > 0 then okv / (okv + nok) else 0) ≤ 1 := by
    split
    · rename_i hpos
      exact ⟨div_nonneg h1 (le_of_lt hpos), (div_le_one hpos).2 (by linarith)⟩
    · exact ⟨by norm_num, by norm_num⟩
  have hr : 0 ≤ (if 0 < gsLen then okv / (gsLen : ℚ) else 0) ∧
      (if 0 < gsLen then okv / (gsLen : ℚ) else 0) ≤ 1 := by
    split
    · rename_i hpos
      have hq : (0 : ℚ) < (gsLen : ℚ) := by exact_mod_cast hpos
      exact ⟨div_nonneg h1 (le_of_lt hq), (div_le_one hq).2 h3⟩
    · exact ⟨by norm_num, by norm_num⟩
  exact ⟨hp.1, hp.2, hr.1, hr.2, (f1_bounds _ _ hp.1 hp.2 hr.1 hr.2).1,
    (f1_bounds _ _ hp.1 hp.2 hr.1 hr.2).2⟩

theorem score_eq (gsLines sysLines : List String) (docs : Option (Finset Int))
    (gsMap sysMap : AnnMap) (okv nok : ℚ)
    (h1 : read_file gsLines docs = .ok gsMap)
    (h2 : read_file sysLines docs = .ok sysMap)
    (h3 : scoreLoop gsMap sysMap (0, 0) = .ok (okv, nok)) :
    score gsLines sysLines docs = .ok (metrics gsMap.length okv nok) := by
  simp only [score, h1, h2, h3]

/-! Invariants of maps produced by read_file. -/

theorem read_file_sets_nonempty (lines : List String) (docs : Option (Finset Int))
    (m : AnnMap) (h : read_file lines docs = .ok m) :
    ∀ p ∈ m, p.2.Nonempty := by
  refine readFold_entry_inv docs (fun p => p.2.Nonempty) ?_ lines [] m h (by simp)
  intro l i hr hi hs
  have hlab : (labelsOf l).toFinset.Nonempty :=
    toFinset_nonempty_of_ne_nil (labelsOf l) (labelsOf_ne_nil l hr)
  exact ⟨hlab, fun v => hlab.mono (Finset.subset_union_right)⟩

theorem read_file_nodup (lines : List String) (docs : Option (Finset Int))
    (m : AnnMap) (h : read_file lines docs = .ok m) :
    (m.map Prod.fst).Nodup :=
  readFold_nodup docs lines [] m h (by simp)

theorem readFold_extract_ok (docs : Option (Finset Int)) (lines : List String) :
    ∀ m0 m : AnnMap, readFold docs m0 lines = .ok m →
      ∀ l ∈ lines, retained l = true → ∃ i, extractDocId (field0 l) = .ok i := by
  induction lines with
  | nil => intro m0 m h l hl; simp at hl
  | cons l0 ls ih =>
    intro m0 m h l hl hr
    simp only [readFold] at h
    cases hp : processLine docs m0 l0 with
    | error e => rw [hp] at h; simp at h
    | ok m1 =>
      rw [hp] at h
      rcases List.mem_cons.1 hl with rfl | hmem
      · exact processLine_ok_extract docs m0 m1 l hp hr
      · exact ih m1 m h l hmem hr

theorem processLine_empty_filter (m : AnnMap) (l : String) :
    processLine (some ∅) m l = processLine none m l := by
  unfold processLine
  split
  · rfl
  · cases extractDocId (field0 l) with
    | error e => rfl
    | ok i => simp only [skipFilter_some_empty, skipFilter_none]

theorem readFold_empty_filter (lines : List String) :
    ∀ m0 : AnnMap, readFold (some ∅) m0 lines = readFold none m0 lines := by
  induction lines with
  | nil => intro m0; rfl
  | cons l ls ih =>
    intro m0
    simp only [readFold, processLine_empty_filter]
    cases processLine none m0 l with
    | error e => rfl
    | ok m1 => exact ih m1

/-- Concrete evaluation of the loop on the running example, used to
discharge hypotheses of witnesses (rational arithmetic does not reduce
by decide). -/
theorem scoreLoop_example_eval :
    scoreLoop [("d1.s1cat", ({"wn:a", "wn:b"} : Finset String)),
        ("d2.s1dog", ({"other"} : Finset String))]
      [("d1.s1cat", ({"wn:a", "wn:c"} : Finset String))] (0, 0) =
      .ok (1 / 2, 1 / 2) := by
  have hstep2 : scoreStep [("d1.s1cat", ({"wn:a", "wn:b"} : Finset String)),
      ("d2.s1dog", ({"other"} : Finset String))] (0, 0)
      ("d1.s1cat", ({"wn:a", "wn:c"} : Finset String)) = .ok (1 / 2, 1 / 2) := by
    have hstep := scoreStep_some
      [("d1.s1cat", ({"wn:a", "wn:b"} : Finset String)),
        ("d2.s1dog", ({"other"} : Finset String))]
      (0, 0) ("d1.s1cat", ({"wn:a", "wn:c"} : Finset String))
      {"wn:a", "wn:b"} (by decide) (by decide)
    dsimp only at hstep
    have hc : ((({"wn:a", "wn:c"} : Finset String)).filter (fun a =>
        a ∈ ({"wn:a", "wn:b"} : Finset String).filter
          (fun b => pyStartsWith b "wn:"))).card = 1 := by decide
    have hn : (({"wn:a", "wn:c"} : Finset String)).card = 2 := by decide
    rw [hc, hn] at hstep
    rw [hstep]
    simp only [Except.ok.injEq, Prod.mk.injEq]
    constructor <;> norm_num
  simp only [scoreLoop, hstep2]

/-! Claim theorems. -/

/-- C1: score accumulates fractional credit per system-map key: the loop
returns the sums over system entries of the per-entry credit c / n and
penalty (n - c) / n, where a key absent from the gold map contributes 0 to
both and a key present in both contributes c / n to matched and (n - c) / n
to unmatched, with c the number of system answers inside the wn:-filtered
gold set and n the system answer count. -/
theorem score_accumulates_fractional_credit (gs : AnnMap)
    (sys : List (String × Finset String))
    (h : ∀ e ∈ sys, lookupA gs e.1 ≠ none → e.2.Nonempty) :
    scoreLoop gs sys (0, 0) =
      .ok ((sys.map (credit gs)).sum, (sys.map (penalty gs)).sum) ∧
    (∀ e : String × Finset String, lookupA gs e.1 = none →
      credit gs e = 0 ∧ penalty gs e = 0) ∧
    (∀ (e : String × Finset String) (g : Finset String), lookupA gs e.1 = some g →
      credit gs e = ((e.2.filter (fun a =>
          a ∈ g.filter (fun b => pyStartsWith b "wn:"))).card : ℚ) / (e.2.card : ℚ) ∧
      penalty gs e = ((e.2.card : ℚ) - ((e.2.filter (fun a =>
          a ∈ g.filter (fun b => pyStartsWith b "wn:"))).card : ℚ)) / (e.2.card : ℚ)) := by
  refine ⟨?_, ?_, ?_⟩
  · have := scoreLoop_ok_sum gs sys (0, 0) h
    simpa using this
  · exact fun e he => ⟨credit_none gs e he, penalty_none gs e he⟩
  · exact fun e g hg => ⟨credit_some gs e g hg, penalty_some gs e g hg⟩

/-- C1 witness: the loop on a concrete gold and system map. -/
theorem score_accumulates_fractional_credit_witness :
    scoreLoop [("k1", ({"wn:a", "wn:b"} : Finset String))]
        [("k1", ({"wn:a", "x"} : Finset String))] (0, 0) =
      .ok (([(("k1", ({"wn:a", "x"} : Finset String)))].map
          (credit [("k1", ({"wn:a", "wn:b"} : Finset String))])).sum,
        ([(("k1", ({"wn:a", "x"} : Finset String)))].map
          (penalty [("k1", ({"wn:a", "wn:b"} : Finset String))])).sum) :=
  (score_accumulates_fractional_credit
    [("k1", ({"wn:a", "wn:b"} : Finset String))]
    [("k1", ({"wn:a", "x"} : Finset String))] (by decide)).1

/-- C5 counterexample: a system entry with an empty answer set whose key is
in the gold map makes the loop raise ZeroDivisionError instead of
contributing 0 to both accumulators. -/
theorem scoreLoop_empty_set_cex :
    scoreLoop [("k", ({"wn:a"} : Finset String))] [("k", (∅ : Finset String))]
        (0, 0) = .error .zeroDiv ∧
    (Except.error .zeroDiv ≠ (.ok ((0 : ℚ), (0 : ℚ)) : Except SError (ℚ × ℚ))) :=
  ⟨by decide, by decide⟩

/-- C5 amended: a system-map key with an empty annotation set that is
present in the gold map makes the scoring loop fail with
ZeroDivisionError (the loop has no n = 0 guard); such keys never occur in
maps built by read_file, so score itself never hits this case. -/
theorem scoreLoop_empty_set_zeroDiv (gs : AnnMap)
    (sys : List (String × Finset String)) (acc : ℚ × ℚ) (k : String)
    (hmem : (k, (∅ : Finset String)) ∈ sys) (hlk : lookupA gs k ≠ none) :
    scoreLoop gs sys acc = .error .zeroDiv :=
  scoreLoop_err_of_mem gs sys acc k hmem hlk

/-- C5 witness: the amended statement at a concrete input. -/
theorem scoreLoop_empty_set_zeroDiv_witness :
    scoreLoop [("q", ({"wn:b"} : Finset String)), ("k", ({"wn:a"} : Finset String))]
        [("z", ({"wn:b"} : Finset String)), ("k", (∅ : Finset String))]
        (1, 2) = .error .zeroDiv :=
  scoreLoop_empty_set_zeroDiv
    [("q", ({"wn:b"} : Finset String)), ("k", ({"wn:a"} : Finset String))]
    [("z", ({"wn:b"} : Finset String)), ("k", (∅ : Finset String))]
    (1, 2) "k" (by decide) (by decide)

/-- C10: each system entry whose key is in the gold map contributes credit
and penalty summing to exactly 1; after the loop, matched plus unmatched
equals the number of system keys present in the gold map, and precision
equals matched divided by that common-key count whenever it is nonzero. -/
theorem score_matched_unmatched_partition (gs : AnnMap)
    (sys : List (String × Finset String)) (okv nok : ℚ)
    (h : scoreLoop gs sys (0, 0) = .ok (okv, nok)) :
    (∀ e ∈ sys, lookupA gs e.1 ≠ none → credit gs e + penalty gs e = 1) ∧
    okv + nok = (countCommon gs sys : ℚ) ∧
    (∀ gsLen : Nat, countCommon gs sys ≠ 0 →
      (metrics gsLen okv nok).1 = okv / (countCommon gs sys : ℚ)) := by
  have hbounds := scoreLoop_ok_bounds gs sys (0, 0) okv nok h
  have hsum : okv + nok = (countCommon gs sys : ℚ) := by
    have := hbounds.1
    simpa using this
  refine ⟨?_, hsum, ?_⟩
  · intro e he hlk
    cases hl : lookupA gs e.1 with
    | none => exact absurd hl hlk
    | some g =>
      have hno : e.2.Nonempty :=
        scoreLoop_ok_nonempty gs sys (0, 0) (okv, nok) h e he hlk
      have hne : e.2.card ≠ 0 := by
        have := Finset.card_pos.2 hno
        omega
      have hq : (e.2.card : ℚ) ≠ 0 := by exact_mod_cast hne
      rw [credit_some gs e g hl, penalty_some gs e g hl, div_add_div_same]
      have harith : ((e.2.filter (fun a =>
          a ∈ g.filter (fun b => pyStartsWith b "wn:"))).card : ℚ) +
          ((e.2.card : ℚ) - ((e.2.filter (fun a =>
          a ∈ g.filter (fun b => pyStartsWith b "wn:"))).card : ℚ)) =
          (e.2.card : ℚ) := by ring
      rw [harith, div_self hq]
  · intro gsLen hcc
    have hpos : (0 : ℚ) < (countCommon gs sys : ℚ) := by
      exact_mod_cast Nat.pos_of_ne_zero hcc
    have hif : okv + nok > 0 := by rw [hsum]; exact hpos
    rw [metrics_eq]
    dsimp only
    rw [if_pos hif, hsum]

/-- C10 witness: the partition property at a concrete input. -/
theorem score_matched_unmatched_partition_witness :
    ((1 : ℚ) / 2) + (1 / 2) =
      (countCommon [("d1.s1cat", ({"wn:a", "wn:b"} : Finset String)),
          ("d2.s1dog", ({"other"} : Finset String))]
        [("d1.s1cat", ({"wn:a", "wn:c"} : Finset String))] : ℚ) :=
  (score_matched_unmatched_partition
    [("d1.s1cat", ({"wn:a", "wn:b"} : Finset String)),
      ("d2.s1dog", ({"other"} : Finset String))]
    [("d1.s1cat", ({"wn:a", "wn:c"} : Finset String))]
    (1 / 2) (1 / 2) scoreLoop_example_eval).2.1

/-- C2: after accumulation, score returns precision = matched/(matched+unmatched)
when the denominator is nonzero and 0 otherwise, recall = matched divided by
the number of distinct keys of the gold map (its keys are pairwise distinct)
when the gold map is non-empty and 0 otherwise, and F1 =
2·precision·recall/(precision+recall) when that denominator is nonzero and 0
otherwise. -/
theorem score_returns_metric_formulas (gsLines sysLines : List String)
    (docs : Option (Finset Int)) (gsMap sysMap : AnnMap) (okv nok : ℚ)
    (h1 : read_file gsLines docs = .ok gsMap)
    (h2 : read_file sysLines docs = .ok sysMap)
    (h3 : scoreLoop gsMap sysMap (0, 0) = .ok (okv, nok)) :
    score gsLines sysLines docs = .ok (metrics gsMap.length okv nok) ∧
    (metrics gsMap.length okv nok).1 =
      (if okv + nok > 0 then okv / (okv + nok) else 0) ∧
    (metrics gsMap.length okv nok).2.1 =
      (if 0 < gsMap.length then okv / (gsMap.length : ℚ) else 0) ∧
    (metrics gsMap.length okv nok).2.2 =
      (if (metrics gsMap.length okv nok).1 + (metrics gsMap.length okv nok).2.1 > 0
       then 2 * (metrics gsMap.length okv nok).1 * (metrics gsMap.length okv nok).2.1 /
         ((metrics gsMap.length okv nok).1 + (metrics gsMap.length okv nok).2.1)
       else 0) ∧
    (gsMap.map Prod.fst).Nodup :=
  ⟨score_eq gsLines sysLines docs gsMap sysMap okv nok h1 h2 h3, rfl, rfl, rfl,
    read_file_nodup gsLines docs gsMap h1⟩

/-- C2 witness: the metric formulas at a concrete pair of files. -/
theorem score_returns_metric_formulas_witness :
    score ["d1.s1\tcat\twn:a\tWN:B", "d2.s1\tdog\tother"]
        ["d1.s1\tcat\twn:a\twn:c"] none = .ok (metrics 2 (1 / 2) (1 / 2)) :=
  (score_returns_metric_formulas
    ["d1.s1\tcat\twn:a\tWN:B", "d2.s1\tdog\tother"] ["d1.s1\tcat\twn:a\twn:c"] none
    [("d1.s1cat", {"wn:a", "wn:b"}), ("d2.s1dog", {"other"})]
    [("d1.s1cat", {"wn:a", "wn:c"})] (1 / 2) (1 / 2)
    (by decide) (by decide) scoreLoop_example_eval).1

/-- C6: whenever score succeeds, the three returned values precision,
recall and F1 all lie in the closed interval from 0 to 1. -/
theorem score_values_in_unit_interval (gsLines sysLines : List String)
    (docs : Option (Finset Int)) (p r f : ℚ)
    (h : score gsLines sysLines docs = .ok (p, r, f)) :
    0 ≤ p ∧ p ≤ 1 ∧ 0 ≤ r ∧ r ≤ 1 ∧ 0 ≤ f ∧ f ≤ 1 := by
  cases hg : read_file gsLines docs with
  | error e =>
    simp only [score, hg] at h
    exact absurd h (by simp)
  | ok gsMap =>
    cases hs : read_file sysLines docs with
    | error e =>
      simp only [score, hg, hs] at h
      exact absurd h (by simp)
    | ok sysMap =>
      cases hl : scoreLoop gsMap sysMap (0, 0) with
      | error e =>
        simp only [score, hg, hs, hl] at h
        exact absurd h (by simp)
      | ok acc =>
        obtain ⟨okv, nok⟩ := acc
        have heq := score_eq gsLines sysLines docs gsMap sysMap okv nok hg hs hl
        have hpair : metrics gsMap.length okv nok = (p, r, f) :=
          Except.ok.inj (heq.symm.trans h)
        have hb := scoreLoop_ok_bounds gsMap sysMap (0, 0) okv nok hl
        have hok0 : 0 ≤ okv := by simpa using hb.2.1
        have hnok0 : 0 ≤ nok := by simpa using hb.2.2.1
        have hcc : okv ≤ (countCommon gsMap sysMap : ℚ) := by
          simpa using hb.2.2.2
        have hnd := read_file_nodup sysLines docs sysMap hs
        have hle : countCommon gsMap sysMap ≤ gsMap.length :=
          countCommon_le_length gsMap sysMap hnd
        have hlen : okv ≤ (gsMap.length : ℚ) :=
          le_trans hcc (by exact_mod_cast hle)
        have hm := metrics_bounds gsMap.length okv nok hok0 hnok0 hlen
        rw [hpair] at hm
        simpa using hm

/-- C6 witness: the bounds at a concrete pair of files. -/
theorem score_values_in_unit_interval_witness :
    0 ≤ (metrics 2 (1 / 2) (1 / 2)).1 ∧ (metrics 2 (1 / 2) (1 / 2)).1 ≤ 1 ∧
    0 ≤ (metrics 2 (1 / 2) (1 / 2)).2.1 ∧ (metrics 2 (1 / 2) (1 / 2)).2.1 ≤ 1 ∧
    0 ≤ (metrics 2 (1 / 2) (1 / 2)).2.2 ∧ (metrics 2 (1 / 2) (1 / 2)).2.2 ≤ 1 :=
  score_values_in_unit_interval
    ["d1.s1\tcat\twn:a\tWN:B", "d2.s1\tdog\tother"] ["d1.s1\tcat\twn:a\twn:c"] none
    (metrics 2 (1 / 2) (1 / 2)).1 (metrics 2 (1 / 2) (1 / 2)).2.1
    (metrics 2 (1 / 2) (1 / 2)).2.2
    (score_eq ["d1.s1\tcat\twn:a\tWN:B", "d2.s1\tdog\tother"]
      ["d1.s1\tcat\twn:a\twn:c"] none
      [("d1.s1cat", {"wn:a", "wn:b"}), ("d2.s1dog", {"other"})]
      [("d1.s1cat", {"wn:a", "wn:c"})] (1 / 2) (1 / 2)
      (by decide) (by decide) scoreLoop_example_eval)

/-- C9: every annotation set in a map returned by read_file is non-empty
(every retained line contributes at least one label, possibly the empty
string), so when both maps come from read_file the per-key division in
score never divides by zero and score returns a result. -/
theorem read_file_nonempty_sets_score_total :
    (∀ (lines : List String) (docs : Option (Finset Int)) (m : AnnMap),
      read_file lines docs = .ok m → ∀ p ∈ m, p.2.Nonempty) ∧
    (∀ (gsLines sysLines : List String) (docs : Option (Finset Int))
      (gsMap sysMap : AnnMap), read_file gsLines docs = .ok gsMap →
      read_file sysLines docs = .ok sysMap →
      ∃ out, score gsLines sysLines docs = .ok out) := by
  refine ⟨read_file_sets_nonempty, ?_⟩
  intro gl sl docs gsMap sysMap h1 h2
  obtain ⟨out, ho⟩ := scoreLoop_total gsMap sysMap (0, 0)
    (fun e he => read_file_sets_nonempty sl docs sysMap h2 e he)
  obtain ⟨okv, nok⟩ := out
  exact ⟨metrics gsMap.length okv nok,
    score_eq gl sl docs gsMap sysMap okv nok h1 h2 ho⟩

/-- C9 witness: the invariant and totality at a concrete file. -/
theorem read_file_nonempty_sets_score_total_witness :
    (("d1.s1cat", ({"wn:a"} : Finset String)).2.Nonempty) ∧
    (∃ out, score ["d1.s1\tcat\twn:a"] ["d1.s1\tcat\twn:a"] none = .ok out) :=
  ⟨read_file_nonempty_sets_score_total.1 ["d1.s1\tcat\twn:a"] none
      [("d1.s1cat", {"wn:a"})] (by decide) ("d1.s1cat", {"wn:a"}) (by decide),
    read_file_nonempty_sets_score_total.2 ["d1.s1\tcat\twn:a"]
      ["d1.s1\tcat\twn:a"] none [("d1.s1cat", {"wn:a"})]
      [("d1.s1cat", {"wn:a"})] (by decide) (by decide)⟩

/-- C3: with an absent or empty document filter, read_file returns a map
whose key set is exactly the set of field0 concatenated with field1 over
the lines with at least 3 tab-separated fields, each key mapping to the
union over those lines of the normalized labels of fields 2..N; lines with
fewer than 3 fields produce no entry. -/
theorem read_file_characterization (lines : List String)
    (docs : Option (Finset Int)) (m : AnnMap)
    (hd : docs = none ∨ docs = some ∅) (h : read_file lines docs = .ok m) :
    (∀ k : String, lookupA m k ≠ none ↔
      ∃ l ∈ lines, retained l = true ∧ keyOf l = k) ∧
    (∀ (k : String) (s : Finset String), lookupA m k = some s →
      ∀ a : String, a ∈ s ↔
        ∃ l ∈ lines, retained l = true ∧ (keyOf l = k ∧ a ∈ labelsOf l)) := by
  have hpass : ∀ i, skipFilter docs i = false := by
    rcases hd with rfl | rfl
    · exact skipFilter_none
    · exact skipFilter_some_empty
  have master := readFold_char docs hpass lines [] m h
  constructor
  · intro k
    have h1 := (master k).1
    simpa [lookupA] using h1
  · intro k s hks a
    have h2 := (master k).2 a
    rw [hks] at h2
    simpa [lookupA] using h2

/-- C3 witness: the characterization at a concrete file with one retained
and one malformed line. -/
theorem read_file_characterization_witness :
    ((lookupA [("d1.s1cat", ({"wn:a"} : Finset String))] "d1.s1cat" ≠ none) ↔
      ∃ l ∈ ["d1.s1\tcat\tWN:A", "bad"], retained l = true ∧ keyOf l = "d1.s1cat") ∧
    ("wn:a" ∈ ({"wn:a"} : Finset String) ↔
      ∃ l ∈ ["d1.s1\tcat\tWN:A", "bad"], retained l = true ∧
        (keyOf l = "d1.s1cat" ∧ "wn:a" ∈ labelsOf l)) := by
  have h := read_file_characterization ["d1.s1\tcat\tWN:A", "bad"] none
    [("d1.s1cat", {"wn:a"})] (Or.inl rfl) (by decide)
  exact ⟨h.1 "d1.s1cat", h.2 "d1.s1cat" {"wn:a"} (by decide) "wn:a"⟩

/-- C4 counterexample: for field 0 "x.d5.s1" the claimed extraction (first
dot AFTER the first d) yields 5, but the code slices up to the first dot of
the whole token, which precedes the d, producing the empty string and a
ParseError that aborts the read. -/
theorem extract_doc_id_cex :
    docIdSpec "x.d5.s1" = .ok 5 ∧
    extractDocId "x.d5.s1" = .error .parse ∧
    read_file ["x.d5.s1\tfrag\twn:a"] none = .error .parse :=
  ⟨by decide, by decide, by decide⟩

/-- C4 amended: the reader parses the substring of field 0 strictly between
the first occurrence of d and the first occurrence of a dot anywhere in the
token (not necessarily after the d) as the document id, raising a fatal
ParseError when d or the dot is absent or the slice is not an integer
literal; a successful read implies every retained line extracted some id. -/
theorem extract_doc_id_amended :
    (∀ (s : String) (i j : Nat), charIdx s.data 'd' = some i →
      charIdx s.data '.' = some j →
      extractDocId s = (match pyIntParse (pySlice s.data (i + 1) j) with
        | some n => Except.ok n
        | none => Except.error PError.parse)) ∧
    (∀ s : String, charIdx s.data 'd' = none ∨ charIdx s.data '.' = none →
      extractDocId s = .error .parse) ∧
    (∀ (docs : Option (Finset Int)) (lines : List String) (m : AnnMap),
      read_file lines docs = .ok m → ∀ l ∈ lines, retained l = true →
      ∃ i, extractDocId (field0 l) = .ok i) := by
  refine ⟨?_, ?_, ?_⟩
  · intro s i j hd hdot
    unfold extractDocId
    rw [hd, hdot]
  · intro s h
    rcases h with hd | hdot
    · unfold extractDocId
      rw [hd]
    · unfold extractDocId
      rw [hdot]
      cases charIdx s.data 'd' <;> rfl
  · intro docs lines m h l hl hr
    exact readFold_extract_ok docs lines [] m h l hl hr

/-- C4 witness: the amended extraction on the spec's own example and on a
dotless token, and propagation through a successful read. -/
theorem extract_doc_id_amended_witness :
    extractDocId "d013.s7" = .ok 13 ∧
    extractDocId "nodigits" = .error .parse ∧
    (∃ i, extractDocId (field0 "d1.s1\tcat\twn:a") = .ok i) := by
  refine ⟨?_, ?_, ?_⟩
  · exact (extract_doc_id_amended.1 "d013.s7" 0 4 (by decide) (by decide)).trans
      (by decide)
  · exact extract_doc_id_amended.2.1 "nodigits" (Or.inr (by decide))
  · exact extract_doc_id_amended.2.2 none ["d1.s1\tcat\twn:a"]
      [("d1.s1cat", {"wn:a"})] (by decide) "d1.s1\tcat\twn:a" (by decide) (by decide)

/-- C7 counterexample: for the empty file the gold and system maps are
identical (both empty) and vacuously every gold label is wn:-prefixed, yet
score returns (0, 0, 0), not (1, 1, 1). -/
theorem score_identical_cex :
    read_file ([] : List String) none = .ok [] ∧
    score ([] : List String) [] none = .ok ((0 : ℚ), (0 : ℚ), (0 : ℚ)) ∧
    ((0 : ℚ), (0 : ℚ), (0 : ℚ)) ≠ ((1 : ℚ), (1 : ℚ), (1 : ℚ)) := by
  refine ⟨rfl, ?_, ?_⟩
  · have h0 : read_file ([] : List String) none = .ok [] := rfl
    have hm : metrics 0 (0 : ℚ) 0 = ((0 : ℚ), (0 : ℚ), (0 : ℚ)) := by
      rw [metrics_eq]
      norm_num
    simp only [score, h0, scoreLoop]
    rw [show (([] : AnnMap)).length = 0 from rfl, hm]
  · intro hc
    have := congrArg (fun t : ℚ × ℚ × ℚ => t.1) hc
    norm_num at this

/-- C7 amended: when the gold and system maps are identical, NON-EMPTY, and
every gold label carries the wn: prefix, score returns precision = recall =
F1 = 1; the empty map instead yields (0, 0, 0). -/
theorem score_identical_amended (lines : List String)
    (docs : Option (Finset Int)) (m : AnnMap)
    (h : read_file lines docs = .ok m) (hne : m ≠ [])
    (hwn : ∀ p ∈ m, ∀ x ∈ p.2, pyStartsWith x "wn:" = true) :
    score lines lines docs = .ok (1, 1, 1) := by
  have hnd := read_file_nodup lines docs m h
  have hmem : ∀ e ∈ m, lookupA m e.1 = some e.2 ∧ e.2.Nonempty ∧
      ∀ x ∈ e.2, pyStartsWith x "wn:" = true := by
    intro e he
    refine ⟨?_, read_file_sets_nonempty lines docs m h e he, hwn e he⟩
    have hmm : (e.1, e.2) ∈ m := by rw [Prod.mk.eta]; exact he
    exact mem_lookupA m e.1 e.2 hnd hmm
  have hloop := scoreLoop_identical m m 0 0 hmem
  have hlen : m.length ≠ 0 := fun hc => hne (List.length_eq_zero.1 hc)
  have hnat : 0 < m.length := Nat.pos_of_ne_zero hlen
  have hq : (0 : ℚ) < (m.length : ℚ) := by exact_mod_cast hnat
  have heq := score_eq lines lines docs m m (0 + (m.length : ℚ)) 0 h h hloop
  have h1 : metrics m.length (0 + (m.length : ℚ)) 0 = (1, 1, 1) := by
    rw [metrics_eq]
    simp only [zero_add, add_zero]
    rw [if_pos hq, if_pos hnat, div_self (ne_of_gt hq)]
    norm_num
  rw [heq, h1]

/-- C7 witness: a one-line wn:-annotated file scored against itself. -/
theorem score_identical_amended_witness :
    score ["d1.s1\tcat\twn:a"] ["d1.s1\tcat\twn:a"] none = .ok (1, 1, 1) :=
  score_identical_amended ["d1.s1\tcat\twn:a"] none [("d1.s1cat", {"wn:a"})]
    (by decide) (by decide) (by decide)

/-- C8: with a supplied non-empty document filter, every key of the map
returned by read_file extracts to a document id belonging to the filter;
a supplied-but-empty filter skips no lines (it behaves like no filter). -/
theorem read_file_filter_invariant :
    (∀ (lines : List String) (ds : Finset Int) (m : AnnMap), ds ≠ ∅ →
      read_file lines (some ds) = .ok m →
      ∀ p ∈ m, ∃ i ∈ ds, extractDocId p.1 = .ok i) ∧
    (∀ lines : List String, read_file lines (some ∅) = read_file lines none) := by
  constructor
  · intro lines ds m hds h
    refine readFold_entry_inv (some ds)
      (fun p => ∃ i ∈ ds, extractDocId p.1 = .ok i) ?_ lines [] m h (by simp)
    intro l i hr hi hs
    have hmem : i ∈ ds := skipFilter_false_mem ds i hds hs
    have hkey : extractDocId (keyOf l) = .ok i := extractDocId_keyOf l i hi
    exact ⟨⟨i, hmem, hkey⟩, fun v => ⟨i, hmem, hkey⟩⟩
  · intro lines
    unfold read_file
    exact readFold_empty_filter lines []

/-- C8 witness: filtering to document 2 keeps only document-2 keys, and the
empty filter equals no filter, at concrete inputs. -/
theorem read_file_filter_invariant_witness :
    (∃ i ∈ ({2} : Finset Int), extractDocId "d2.s1cat" = .ok i) ∧
    read_file ["d1.s1\tcat\twn:a"] (some ∅) =
      read_file ["d1.s1\tcat\twn:a"] none := by
  constructor
  · exact read_file_filter_invariant.1 ["d2.s1\tcat\twn:a", "d3.s1\tdog\twn:b"]
      {2} [("d2.s1cat", {"wn:a"})] (by decide) (by decide)
      ("d2.s1cat", {"wn:a"}) (by decide)
  · exact read_file_filter_invariant.2 ["d1.s1\tcat\twn:a"]

end Scorer
